import Mathlib

/-!
# Verification of the burmese_corpus_scraper crawl/extraction pipeline

A shallow embedding, in Lean 4, of the parts of the scraper that the
specification talks about: text cleaning (`src/scraper/utils.py`), engine
probing and selection (`src/scraper/crawler.py`), pagination URL enumeration
and the article-processing loop (`src/scraper/main.py`), article extraction
(`src/scraper/extractor.py`), and the resume-ledger scan and output validator
(`src/scraper/storage.py`).

Side-effecting collaborators (HTTP fetching, the system clock, the JSON
decoder, the md5 id hash) are passed in as explicit function arguments, so
every definition is a pure, executable translation of the corresponding
Python function.
-/

namespace BurmeseScraper

/-! ## Python string primitives

`clean_text` in `src/scraper/utils.py` uses `re.sub(r'\s+', ' ', text)`
followed by `str.strip()`.  Both the regex class `\s` and `str.strip()`
select the same whitespace characters; we model the class by `pyIsSpace`
(the ASCII whitespace characters; the Unicode whitespace characters behave
identically in both operations, so nothing below depends on the exact set).
Strings are worked on as `List Char` (`String.data`).
-/

/-- Python whitespace test shared by `re` with class `\s` and `str.strip()`. -/
def pyIsSpace (c : Char) : Bool :=
  c == ' ' || c == '\t' || c == '\n' || c == '\r' || c == Char.ofNat 11 || c == Char.ofNat 12

/-- `str.strip()` on a character list: drop leading and trailing whitespace. -/
def stripChars (l : List Char) : List Char :=
  ((l.dropWhile pyIsSpace).reverse.dropWhile pyIsSpace).reverse

/-- `str.strip()` on a `String`. -/
def pyStrip (s : String) : String :=
  ⟨stripChars s.data⟩

/-- `re.sub(r'\s+', ' ', ·)`: every maximal run of whitespace characters is
replaced by a single `' '`.  The boolean flag records whether the previous
character was part of a whitespace run (so only the first character of a run
emits the space). -/
def collapseWsAux : Bool → List Char → List Char
  | _, [] => []
  | inRun, c :: cs =>
    if pyIsSpace c then
      if inRun then collapseWsAux true cs
      else ' ' :: collapseWsAux true cs
    else c :: collapseWsAux false cs

/-- `re.sub(r'\s+', ' ', l)`. -/
def collapseWs (l : List Char) : List Char :=
  collapseWsAux false l

/-- `clean_text` from `src/scraper/utils.py`, on character lists:
`if not text: return ""` then collapse whitespace runs and strip. -/
def cleanTextChars (l : List Char) : List Char :=
  if l = [] then [] else stripChars (collapseWs l)

/-- `clean_text` from `src/scraper/utils.py` on `String`s. -/
def clean_text (s : String) : String :=
  ⟨cleanTextChars s.data⟩

/-- `clean_text` including the `None`-like absent input: Python's
`if not text: return ""` guard treats `None` and `""` alike. -/
def clean_text_opt (t : Option String) : String :=
  match t with
  | none => ""
  | some s => clean_text s

/-! ### Properties of `clean_text` (claim C10) -/

/-- Adjacent characters are never both whitespace. -/
def NoWsRun (l : List Char) : Prop :=
  l.Chain' (fun a b => ¬(pyIsSpace a = true ∧ pyIsSpace b = true))

theorem collapseWsAux_cons_space {b : Bool} {x : Char} (xs : List Char)
    (hx : pyIsSpace x = true) :
    collapseWsAux b (x :: xs) =
      if b then collapseWsAux true xs else ' ' :: collapseWsAux true xs := by
  cases b <;> simp [collapseWsAux, hx]

theorem collapseWsAux_cons_nonspace {b : Bool} {x : Char} (xs : List Char)
    (hx : pyIsSpace x = false) :
    collapseWsAux b (x :: xs) = x :: collapseWsAux false xs := by
  cases b <;> simp [collapseWsAux, hx]

theorem collapseWsAux_space_eq_blank {b : Bool} {l : List Char} :
    ∀ c ∈ collapseWsAux b l, pyIsSpace c = true → c = ' ' := by
  induction l generalizing b with
  | nil => intro c hc; simp [collapseWsAux] at hc
  | cons x xs ih =>
    intro c hc hspace
    cases hx : pyIsSpace x with
    | true =>
      rw [collapseWsAux_cons_space xs hx] at hc
      cases b with
      | true => exact ih c (by simpa using hc) hspace
      | false =>
        rcases List.mem_cons.mp (by simpa using hc) with h | h
        · exact h
        · exact ih c h hspace
    | false =>
      rw [collapseWsAux_cons_nonspace xs hx] at hc
      rcases List.mem_cons.mp hc with h | h
      · subst h; rw [hspace] at hx; exact absurd hx (by simp)
      · exact ih c h hspace

theorem collapseWsAux_true_head {l : List Char} :
    ∀ c, (collapseWsAux true l).head? = some c → pyIsSpace c = false := by
  induction l with
  | nil => intro c hc; simp [collapseWsAux] at hc
  | cons x xs ih =>
    intro c hc
    cases hx : pyIsSpace x with
    | true =>
      rw [collapseWsAux_cons_space xs hx, if_pos rfl] at hc
      exact ih c hc
    | false =>
      rw [collapseWsAux_cons_nonspace xs hx] at hc
      simp only [List.head?_cons, Option.some.injEq] at hc
      subst hc
      exact hx

theorem collapseWsAux_noWsRun (b : Bool) (l : List Char) :
    NoWsRun (collapseWsAux b l) := by
  induction l generalizing b with
  | nil => simp [collapseWsAux, NoWsRun]
  | cons x xs ih =>
    cases hx : pyIsSpace x with
    | true =>
      rw [NoWsRun, collapseWsAux_cons_space xs hx]
      cases b with
      | true => exact ih true
      | false =>
        simp only [if_neg (by simp : ¬((false : Bool) = true))]
        refine List.chain'_cons'.mpr ⟨?_, ih true⟩
        intro y hy hcontra
        have := collapseWsAux_true_head y (by simpa using hy)
        rw [hcontra.2] at this
        simp at this
    | false =>
      rw [NoWsRun, collapseWsAux_cons_nonspace xs hx]
      refine List.chain'_cons'.mpr ⟨?_, ih false⟩
      intro y _ hcontra
      rw [hcontra.1] at hx
      simp at hx

theorem dropWhile_head_not {p : Char → Bool} {l : List Char} :
    ∀ c, (l.dropWhile p).head? = some c → p c = false := by
  induction l with
  | nil => intro c hc; simp [List.dropWhile] at hc
  | cons x xs ih =>
    intro c hc
    by_cases hx : p x = true
    · rw [List.dropWhile_cons_of_pos hx] at hc
      exact ih c hc
    · rw [List.dropWhile_cons_of_neg hx] at hc
      simp only [List.head?_cons, Option.some.injEq] at hc
      subst hc
      simpa using hx

theorem dropWhile_eq_self_of_head {p : Char → Bool} {l : List Char}
    (h : ∀ c, l.head? = some c → p c = false) : l.dropWhile p = l := by
  cases l with
  | nil => rfl
  | cons x xs =>
    have := h x (by simp)
    rw [List.dropWhile_cons_of_neg (by simp [this])]

theorem dropWhile_getLast? {p : Char → Bool} {l : List Char}
    (h : l.dropWhile p ≠ []) : (l.dropWhile p).getLast? = l.getLast? := by
  induction l with
  | nil => simp at h
  | cons x xs ih =>
    by_cases hx : p x = true
    · rw [List.dropWhile_cons_of_pos hx] at h ⊢
      have hxs : xs ≠ [] := by
        intro he; rw [he] at h; simp [List.dropWhile] at h
      rw [ih h]
      cases xs with
      | nil => exact absurd rfl hxs
      | cons y ys => rw [List.getLast?_cons_cons]
    · rw [List.dropWhile_cons_of_neg hx]

theorem dropWhile_sublist_chars {p : Char → Bool} (l : List Char) :
    (l.dropWhile p).Sublist l := by
  induction l with
  | nil => simp
  | cons x xs ih =>
    by_cases hx : p x = true
    · rw [List.dropWhile_cons_of_pos hx]
      exact ih.cons x
    · rw [List.dropWhile_cons_of_neg hx]

theorem noWsRun_dropWhile {p : Char → Bool} {l : List Char} (h : NoWsRun l) :
    NoWsRun (l.dropWhile p) := by
  induction l with
  | nil => simpa using h
  | cons x xs ih =>
    by_cases hx : p x = true
    · rw [List.dropWhile_cons_of_pos hx]
      exact ih (List.Chain'.tail h)
    · rw [List.dropWhile_cons_of_neg hx]
      exact h

theorem noWsRun_reverse {l : List Char} (h : NoWsRun l) : NoWsRun l.reverse := by
  rw [NoWsRun, List.chain'_reverse]
  exact h.imp (fun a b hab => fun hc => hab ⟨hc.2, hc.1⟩)

theorem stripChars_noWsRun {l : List Char} (h : NoWsRun l) :
    NoWsRun (stripChars l) := by
  unfold stripChars
  exact noWsRun_reverse (noWsRun_dropWhile (noWsRun_reverse (noWsRun_dropWhile h)))

theorem stripChars_mem {l : List Char} {c : Char} (h : c ∈ stripChars l) : c ∈ l := by
  unfold stripChars at h
  rw [List.mem_reverse] at h
  have h1 := (dropWhile_sublist_chars ((l.dropWhile pyIsSpace).reverse)).mem h
  rw [List.mem_reverse] at h1
  exact (dropWhile_sublist_chars l).mem h1

theorem stripChars_head {l : List Char} :
    ∀ c, (stripChars l).head? = some c → pyIsSpace c = false := by
  intro c hc
  unfold stripChars at hc
  rw [List.head?_reverse] at hc
  by_cases hemp : (l.dropWhile pyIsSpace).reverse.dropWhile pyIsSpace = []
  · rw [hemp] at hc; simp at hc
  · rw [dropWhile_getLast? hemp, List.getLast?_reverse] at hc
    exact dropWhile_head_not c hc

theorem stripChars_getLast {l : List Char} :
    ∀ c, (stripChars l).getLast? = some c → pyIsSpace c = false := by
  intro c hc
  unfold stripChars at hc
  rw [List.getLast?_reverse] at hc
  exact dropWhile_head_not c hc

theorem stripChars_eq_self {l : List Char}
    (hh : ∀ c, l.head? = some c → pyIsSpace c = false)
    (hl : ∀ c, l.getLast? = some c → pyIsSpace c = false) :
    stripChars l = l := by
  unfold stripChars
  rw [dropWhile_eq_self_of_head hh]
  rw [dropWhile_eq_self_of_head (fun c hc => hl c (by rwa [List.head?_reverse] at hc))]
  exact List.reverse_reverse l

theorem collapseWsAux_eq_self {l : List Char} (hrun : NoWsRun l)
    (hblank : ∀ c ∈ l, pyIsSpace c = true → c = ' ') :
    ∀ b : Bool, (b = false ∨ ∀ c, l.head? = some c → pyIsSpace c = false) →
      collapseWsAux b l = l := by
  induction l with
  | nil => intro b _; cases b <;> rfl
  | cons x xs ih =>
    intro b hb
    cases hx : pyIsSpace x with
    | true =>
      have hbf : b = false := by
        rcases hb with h | h
        · exact h
        · have := h x (by simp)
          rw [hx] at this
          simp at this
      subst hbf
      rw [collapseWsAux_cons_space xs hx, if_neg (by simp : ¬((false : Bool) = true))]
      have hx' : x = ' ' := hblank x (by simp) hx
      have hxs : collapseWsAux true xs = xs := by
        refine ih (List.Chain'.tail hrun) (fun c hc hs => hblank c (List.mem_cons_of_mem _ hc) hs) true (Or.inr ?_)
        intro c hc
        cases xs with
        | nil => simp at hc
        | cons y ys =>
          simp only [List.head?_cons, Option.some.injEq] at hc
          have hrel := (List.chain'_cons'.mp hrun).1 y (by simp)
          subst hc
          by_contra hcs
          exact hrel ⟨hx, by simpa using hcs⟩
      rw [hxs, hx']
    | false =>
      rw [collapseWsAux_cons_nonspace xs hx]
      rw [ih (List.Chain'.tail hrun) (fun c hc hs => hblank c (List.mem_cons_of_mem _ hc) hs) false (Or.inl rfl)]

theorem cleanTextChars_props (l : List Char) :
    NoWsRun (cleanTextChars l)
    ∧ (∀ c ∈ cleanTextChars l, pyIsSpace c = true → c = ' ')
    ∧ (∀ c, (cleanTextChars l).head? = some c → pyIsSpace c = false)
    ∧ (∀ c, (cleanTextChars l).getLast? = some c → pyIsSpace c = false) := by
  by_cases hl : l = []
  · subst hl
    refine ⟨by simp [cleanTextChars, NoWsRun], ?_, ?_, ?_⟩ <;> intro c hc <;> simp [cleanTextChars] at hc
  · have he : cleanTextChars l = stripChars (collapseWs l) := by
      simp [cleanTextChars, hl]
    refine ⟨?_, ?_, ?_, ?_⟩
    · rw [he]; exact stripChars_noWsRun (collapseWsAux_noWsRun false l)
    · rw [he]
      intro c hc hs
      exact collapseWsAux_space_eq_blank c (stripChars_mem hc) hs
    · rw [he]; exact stripChars_head
    · rw [he]; exact stripChars_getLast

theorem cleanTextChars_idem (l : List Char) :
    cleanTextChars (cleanTextChars l) = cleanTextChars l := by
  obtain ⟨hrun, hblank, hh, hl⟩ := cleanTextChars_props l
  by_cases hemp : cleanTextChars l = []
  · rw [hemp]; rfl
  · have h1 : cleanTextChars (cleanTextChars l) = stripChars (collapseWs (cleanTextChars l)) := by
      show (if cleanTextChars l = [] then [] else stripChars (collapseWs (cleanTextChars l))) = _
      rw [if_neg hemp]
    have h2 : collapseWs (cleanTextChars l) = cleanTextChars l :=
      collapseWsAux_eq_self hrun hblank false (Or.inl rfl)
    rw [h1, h2, stripChars_eq_self hh hl]

/-- C10: `clean_text` is idempotent; its output has no leading or trailing
whitespace and no run of two or more consecutive whitespace characters; the
empty string and the `None`-like absent input both map to the empty string. -/
theorem clean_text_idempotent_and_normalized :
    (∀ s : String, clean_text (clean_text s) = clean_text s)
    ∧ (∀ s : String, ∀ c, (clean_text s).data.head? = some c → pyIsSpace c = false)
    ∧ (∀ s : String, ∀ c, (clean_text s).data.getLast? = some c → pyIsSpace c = false)
    ∧ (∀ s : String, NoWsRun (clean_text s).data)
    ∧ clean_text "" = "" ∧ clean_text_opt none = "" := by
  refine ⟨?_, ?_, ?_, ?_, rfl, rfl⟩
  · intro s
    show (⟨cleanTextChars (clean_text s).data⟩ : String) = clean_text s
    rw [show (clean_text s).data = cleanTextChars s.data from rfl, cleanTextChars_idem]
    rfl
  · intro s; exact (cleanTextChars_props s.data).2.2.1
  · intro s; exact (cleanTextChars_props s.data).2.2.2
  · intro s; exact (cleanTextChars_props s.data).1

/-- C10 witness: the theorem applied at the concrete input `"  a   b "`. -/
theorem clean_text_idempotent_witness :
    clean_text (clean_text "  a   b ") = clean_text "  a   b "
    ∧ pyIsSpace 'a' = false := by
  refine ⟨clean_text_idempotent_and_normalized.1 "  a   b ", ?_⟩
  have h : (clean_text "  a   b ").data.head? = some 'a' := by decide
  exact clean_text_idempotent_and_normalized.2.1 "  a   b " 'a' h

/-! ## Engine probing and selection (claim C3)

`src/scraper/crawler.py`: a scraping engine offers `get_page(url)` (returning
page content, or `None` on any transport failure — modelled as `Option`) and
`find_elements(content, selector)` (an ordered list of matched nodes,
modelled by their serialized forms).  `WebCrawler.test_engine` probes one
engine; `WebCrawler.choose_engine` walks the ordered candidate list and picks
the first engine that passes the probe.  The forced-engine override branch
bypasses probing and is not part of this claim; instantiating a passing
engine class is modelled as always succeeding (the Lean value already
exists). -/

structure Engine where
  get_page : String → Option String
  find_elements : String → String → List String

/-- `WebCrawler.test_engine`: fetch the probe URL, then apply the probe
selector; fail when the fetch returns no content or the selector matches
zero elements. -/
def test_engine (e : Engine) (url selector : String) : Bool × String :=
  match e.get_page url with
  | none => (false, "Failed to get page content")
  | some content =>
    let elements := e.find_elements content selector
    if elements.isEmpty then (false, "No elements found with selector")
    else (true, "Found elements")

/-- `WebCrawler.choose_engine` (probing path): test candidates in order and
return the first that passes `test_engine`; `none` when no candidate does. -/
def choose_engine (engines : List Engine) (url selector : String) : Option Engine :=
  match engines with
  | [] => none
  | e :: rest =>
    if (test_engine e url selector).1 then some e
    else choose_engine rest url selector

/-- The specification's qualification predicate: `fetch` succeeds and
`locate` yields at least one element. -/
def engineQualifies (url selector : String) (e : Engine) : Bool :=
  match e.get_page url with
  | none => false
  | some content => !(e.find_elements content selector).isEmpty

theorem test_engine_fst (e : Engine) (url selector : String) :
    (test_engine e url selector).1 = engineQualifies url selector e := by
  unfold test_engine engineQualifies
  cases e.get_page url with
  | none => rfl
  | some content => cases h : (e.find_elements content selector).isEmpty <;> simp [h]

/-- C3: engine selection returns the first candidate engine, in list order,
for which fetching the probe URL succeeds and the probe selector matches at
least one element; it returns no engine exactly when no candidate
qualifies — including when every candidate returns content but zero matched
elements. -/
theorem choose_engine_first_qualifying (engines : List Engine) (url selector : String) :
    choose_engine engines url selector = engines.find? (engineQualifies url selector)
    ∧ (choose_engine engines url selector = none ↔
        ∀ e ∈ engines, engineQualifies url selector e = false) := by
  have hfind : choose_engine engines url selector
      = engines.find? (engineQualifies url selector) := by
    induction engines with
    | nil => rfl
    | cons e rest ih =>
      show (if (test_engine e url selector).1 then some e
            else choose_engine rest url selector) = _
      rw [test_engine_fst]
      cases hq : engineQualifies url selector e with
      | true => rw [if_pos rfl, List.find?_cons_of_pos _ hq]
      | false =>
        rw [if_neg (by simp), List.find?_cons_of_neg _ (by simp [hq]), ih]
  refine ⟨hfind, ?_⟩
  rw [hfind, List.find?_eq_none]
  constructor
  · intro h e he
    have := h e he
    simpa using this
  · intro h e he
    simp [h e he]

def engineNoContent : Engine :=
  { get_page := fun _ => none, find_elements := fun _ _ => [] }

def engineWithElement : Engine :=
  { get_page := fun _ => some "<html><div>x</div></html>",
    find_elements := fun content _ => [content] }

/-- C3 witness: with a failing first candidate and a succeeding second one,
selection picks the second. -/
theorem choose_engine_first_qualifying_witness :
    choose_engine [engineNoContent, engineWithElement] "https://x.test/list" "div"
      = some engineWithElement := by
  rw [(choose_engine_first_qualifying [engineNoContent, engineWithElement]
      "https://x.test/list" "div").1]
  rfl

/-! ## URL-list handoff file (claim C9)

`BurmeseCorpusScraper._save_urls_to_file` in `src/scraper/main.py`
de-duplicates the collected URL strings (a `seen_urls` set plus an ordered
`unique_urls` list) and writes `{archive_url, archive_selector,
content_selector, total_urls, urls}`.  Writing the JSON document to disk is
modelled by returning the document. -/

structure UrlsData where
  archive_url : String
  archive_selector : String
  content_selector : String
  total_urls : Nat
  urls : List String

/-- The `for url in urls: if url not in seen_urls: ...` loop of
`_save_urls_to_file`. -/
def dedupUrlsLoop : List String → List String → Finset String → List String
  | [], unique_urls, _ => unique_urls
  | u :: rest, unique_urls, seen =>
    if u ∈ seen then dedupUrlsLoop rest unique_urls seen
    else dedupUrlsLoop rest (unique_urls ++ [u]) (insert u seen)

/-- `BurmeseCorpusScraper._save_urls_to_file`. -/
def save_urls_to_file (archive_url archive_selector content_selector : String)
    (urls : List String) : UrlsData :=
  let unique_urls := dedupUrlsLoop urls [] ∅
  { archive_url := archive_url
    archive_selector := archive_selector
    content_selector := content_selector
    total_urls := unique_urls.length
    urls := unique_urls }

/-- The specification's description of the handoff list: keep each URL at
its first occurrence, comparing by exact string equality. -/
def firstOccDedup : List String → List String
  | [] => []
  | u :: rest => u :: firstOccDedup (rest.filter (fun v => decide (v ≠ u)))
termination_by l => l.length
decreasing_by
  simp only [List.length_cons]
  exact Nat.lt_succ_of_le ((List.filter_sublist rest).length_le)

theorem mem_firstOccDedup : ∀ (l : List String) (x : String),
    x ∈ firstOccDedup l ↔ x ∈ l
  | [], x => by rw [firstOccDedup]
  | u :: rest, x => by
    rw [firstOccDedup]
    constructor
    · intro h
      rcases List.mem_cons.mp h with h | h
      · simp [h]
      · have := (mem_firstOccDedup (rest.filter fun v => decide (v ≠ u)) x).mp h
        exact List.mem_cons_of_mem _ (List.mem_filter.mp this).1
    · intro h
      rcases List.mem_cons.mp h with h | h
      · simp [h]
      · by_cases hx : x = u
        · simp [hx]
        · refine List.mem_cons_of_mem _ ?_
          exact (mem_firstOccDedup (rest.filter fun v => decide (v ≠ u)) x).mpr
            (List.mem_filter.mpr ⟨h, by simpa using hx⟩)
termination_by l => l.length
decreasing_by
  all_goals simp only [List.length_cons]
  all_goals exact Nat.lt_succ_of_le ((List.filter_sublist rest).length_le)

theorem nodup_firstOccDedup : ∀ l : List String, (firstOccDedup l).Nodup
  | [] => by rw [firstOccDedup]; exact List.nodup_nil
  | u :: rest => by
    rw [firstOccDedup]
    refine List.nodup_cons.mpr ⟨?_, nodup_firstOccDedup (rest.filter fun v => decide (v ≠ u))⟩
    intro hmem
    have := (mem_firstOccDedup (rest.filter fun v => decide (v ≠ u)) u).mp hmem
    have := (List.mem_filter.mp this).2
    simp at this
termination_by l => l.length
decreasing_by
  all_goals simp only [List.length_cons]
  all_goals exact Nat.lt_succ_of_le ((List.filter_sublist rest).length_le)

theorem dedupUrlsLoop_spec : ∀ (l : List String) (acc : List String) (seen : Finset String),
    dedupUrlsLoop l acc seen = acc ++ firstOccDedup (l.filter (fun v => decide (v ∉ seen)))
  | [], acc, seen => by simp [dedupUrlsLoop, firstOccDedup]
  | u :: rest, acc, seen => by
    by_cases hu : u ∈ seen
    · rw [show dedupUrlsLoop (u :: rest) acc seen = dedupUrlsLoop rest acc seen from by
        simp [dedupUrlsLoop, hu]]
      rw [dedupUrlsLoop_spec rest acc seen]
      congr 2
      rw [List.filter_cons, if_neg (by simp [hu])]
    · rw [show dedupUrlsLoop (u :: rest) acc seen
          = dedupUrlsLoop rest (acc ++ [u]) (insert u seen) from by
        simp [dedupUrlsLoop, hu]]
      rw [dedupUrlsLoop_spec rest (acc ++ [u]) (insert u seen)]
      rw [List.filter_cons, if_pos (by simp [hu])]
      rw [firstOccDedup]
      have hfil : rest.filter (fun v => decide (v ∉ insert u seen))
          = (rest.filter (fun v => decide (v ∉ seen))).filter (fun v => decide (v ≠ u)) := by
        rw [List.filter_filter]
        refine List.filter_congr ?_
        intro a _
        by_cases h1 : a ∈ seen <;> by_cases h2 : a = u <;>
          simp [h1, h2, Finset.mem_insert]
      rw [hfil, List.append_assoc, List.singleton_append]

/-- C9: the URL-list handoff document contains the collected URLs
de-duplicated by exact string equality in first-collection order, and
`total_urls` is the number of distinct URLs. -/
theorem save_urls_to_file_dedup (archive_url archive_selector content_selector : String)
    (urls : List String) :
    (save_urls_to_file archive_url archive_selector content_selector urls).urls
      = firstOccDedup urls
    ∧ (save_urls_to_file archive_url archive_selector content_selector urls).total_urls
      = (firstOccDedup urls).length
    ∧ (save_urls_to_file archive_url archive_selector content_selector urls).urls.Nodup
    ∧ (save_urls_to_file archive_url archive_selector content_selector urls).urls.toFinset
      = urls.toFinset
    ∧ (save_urls_to_file archive_url archive_selector content_selector urls).total_urls
      = urls.toFinset.card := by
  have hurls : dedupUrlsLoop urls [] ∅ = firstOccDedup urls := by
    rw [dedupUrlsLoop_spec urls [] ∅]
    rw [List.filter_eq_self.mpr (by intro a _; simp)]
    rfl
  have h1 : (save_urls_to_file archive_url archive_selector content_selector urls).urls
      = firstOccDedup urls := hurls
  have h2 : (save_urls_to_file archive_url archive_selector content_selector urls).total_urls
      = (firstOccDedup urls).length := by
    show (dedupUrlsLoop urls [] ∅).length = _
    rw [hurls]
  have hnodup : (firstOccDedup urls).Nodup := nodup_firstOccDedup urls
  have hfin : (firstOccDedup urls).toFinset = urls.toFinset := by
    ext x
    simp only [List.mem_toFinset]
    exact mem_firstOccDedup urls x
  refine ⟨h1, h2, h1 ▸ hnodup, h1 ▸ hfin, ?_⟩
  rw [h2, ← List.toFinset_card_of_nodup hnodup, hfin]

/-- C9 witness: the theorem applied at a concrete URL list containing a
duplicate. -/
theorem save_urls_to_file_dedup_witness :
    (save_urls_to_file "https://x.test/list" ".item" ".content"
        ["https://x.test/a", "https://x.test/b", "https://x.test/a"]).urls
      = firstOccDedup ["https://x.test/a", "https://x.test/b", "https://x.test/a"]
    ∧ (save_urls_to_file "https://x.test/list" ".item" ".content"
        ["https://x.test/a", "https://x.test/b", "https://x.test/a"]).total_urls = 2 := by
  refine ⟨(save_urls_to_file_dedup "https://x.test/list" ".item" ".content"
    ["https://x.test/a", "https://x.test/b", "https://x.test/a"]).1, ?_⟩
  rw [(save_urls_to_file_dedup "https://x.test/list" ".item" ".content"
    ["https://x.test/a", "https://x.test/b", "https://x.test/a"]).2.2.2.2]
  decide

/-! ## Resume ledger during the article-processing loop (claim C2)

`BurmeseCorpusScraper._process_articles_from_urls` in `src/scraper/main.py`
(the `_process_archive_page` non-collect loop is the same logic over archive
items): for each URL, compute `article_id = generate_id(article_url)`; skip
when the id is already in `existing_ids`; otherwise attempt
fetch/extract/store (`_process_article`, modelled by the oracle
`processOk : Nat → String → Bool` taking the position of the URL in the run
so that repeated attempts of one URL may differ) and, on success, add the id
to `existing_ids` immediately.  `savedIds` records, in order, the ids whose
records were appended to the storage sink. -/

structure RunStats where
  articles_processed : Nat
  articles_saved : Nat
  articles_skipped : Nat
deriving Repr, DecidableEq

structure ProcessState where
  ledger : Finset String
  savedIds : List String
  stats : RunStats
deriving DecidableEq

/-- The `for article_url in urls` loop body of `_process_articles_from_urls`,
over position-indexed URLs. -/
def processArticlesLoop (genId : String → String) (processOk : Nat → String → Bool) :
    List (Nat × String) → ProcessState → ProcessState
  | [], st => st
  | (i, article_url) :: rest, st =>
    let article_id := genId article_url
    if article_id ∈ st.ledger then
      processArticlesLoop genId processOk rest
        { st with stats := { st.stats with
            articles_skipped := st.stats.articles_skipped + 1 } }
    else if processOk i article_url then
      processArticlesLoop genId processOk rest
        { ledger := insert article_id st.ledger
          savedIds := st.savedIds ++ [article_id]
          stats := { articles_processed := st.stats.articles_processed + 1
                     articles_saved := st.stats.articles_saved + 1
                     articles_skipped := st.stats.articles_skipped } }
    else
      processArticlesLoop genId processOk rest
        { st with stats := { st.stats with
            articles_processed := st.stats.articles_processed + 1
            articles_skipped := st.stats.articles_skipped + 1 } }

/-- `BurmeseCorpusScraper._process_articles_from_urls`: run the loop from the
ledger loaded at run start. -/
def process_articles_from_urls (genId : String → String) (processOk : Nat → String → Bool)
    (urls : List String) (existing_ids : Finset String) : ProcessState :=
  processArticlesLoop genId processOk urls.enum
    { ledger := existing_ids, savedIds := [], stats := ⟨0, 0, 0⟩ }

theorem processArticlesLoop_inv (genId : String → String) (processOk : Nat → String → Bool)
    (existing_ids : Finset String) :
    ∀ (l : List (Nat × String)) (st : ProcessState),
      st.savedIds.Nodup →
      st.ledger = existing_ids ∪ st.savedIds.toFinset →
      (∀ x ∈ st.savedIds, x ∉ existing_ids) →
      (processArticlesLoop genId processOk l st).savedIds.Nodup
      ∧ (processArticlesLoop genId processOk l st).ledger
          = existing_ids ∪ (processArticlesLoop genId processOk l st).savedIds.toFinset
      ∧ (∀ x ∈ (processArticlesLoop genId processOk l st).savedIds, x ∉ existing_ids)
      ∧ st.savedIds.Sublist (processArticlesLoop genId processOk l st).savedIds := by
  intro l
  induction l with
  | nil => intro st h1 h2 h3; exact ⟨h1, h2, h3, List.Sublist.refl _⟩
  | cons p rest ih =>
    rcases p with ⟨i, article_url⟩
    intro st h1 h2 h3
    show _ ∧ _ ∧ _ ∧ st.savedIds.Sublist
      (processArticlesLoop genId processOk ((i, article_url) :: rest) st).savedIds
    by_cases hin : genId article_url ∈ st.ledger
    · rw [show processArticlesLoop genId processOk ((i, article_url) :: rest) st
          = processArticlesLoop genId processOk rest
            { st with stats := { st.stats with
                articles_skipped := st.stats.articles_skipped + 1 } } from by
        simp [processArticlesLoop, hin]]
      exact ih _ h1 h2 h3
    · by_cases hok : processOk i article_url = true
      · rw [show processArticlesLoop genId processOk ((i, article_url) :: rest) st
            = processArticlesLoop genId processOk rest
              { ledger := insert (genId article_url) st.ledger
                savedIds := st.savedIds ++ [genId article_url]
                stats := { articles_processed := st.stats.articles_processed + 1
                           articles_saved := st.stats.articles_saved + 1
                           articles_skipped := st.stats.articles_skipped } } from by
          simp [processArticlesLoop, hin, hok]]
        have hnotin : genId article_url ∉ st.savedIds := by
          intro hmem
          exact hin (h2 ▸ Finset.mem_union_right _ (List.mem_toFinset.mpr hmem))
        have h1' : (st.savedIds ++ [genId article_url]).Nodup := by
          rw [List.nodup_append]
          exact ⟨h1, List.nodup_singleton _, by
            intro x hx hy
            rw [List.mem_singleton] at hy
            exact hnotin (hy ▸ hx)⟩
        have h2' : insert (genId article_url) st.ledger
            = existing_ids ∪ (st.savedIds ++ [genId article_url]).toFinset := by
          rw [h2]
          ext x
          simp [List.mem_toFinset, List.mem_append, Finset.mem_insert, Finset.mem_union]
          tauto
        have h3' : ∀ x ∈ st.savedIds ++ [genId article_url], x ∉ existing_ids := by
          intro x hx
          rcases List.mem_append.mp hx with h | h
          · exact h3 x h
          · rw [List.mem_singleton] at h
            subst h
            intro hmem
            exact hin (h2 ▸ Finset.mem_union_left _ hmem)
        obtain ⟨g1, g2, g3, g4⟩ := ih
          { ledger := insert (genId article_url) st.ledger
            savedIds := st.savedIds ++ [genId article_url]
            stats := { articles_processed := st.stats.articles_processed + 1
                       articles_saved := st.stats.articles_saved + 1
                       articles_skipped := st.stats.articles_skipped } }
          h1' h2' h3'
        exact ⟨g1, g2, g3, (List.sublist_append_left _ _).trans g4⟩
      · rw [show processArticlesLoop genId processOk ((i, article_url) :: rest) st
            = processArticlesLoop genId processOk rest
              { st with stats := { st.stats with
                  articles_processed := st.stats.articles_processed + 1
                  articles_skipped := st.stats.articles_skipped + 1 } } from by
          simp [processArticlesLoop, hin, hok]]
        exact ih _ h1 h2 h3

/-- C2: within a single run, the sequence of ids appended to the sink by the
article-processing loop never repeats an id (each successful store inserts
the id into the in-memory ledger at once, and every store attempt is gated
on a ledger-membership check), and no id already in the ledger loaded at run
start is ever stored again. -/
theorem process_articles_no_duplicate_store (genId : String → String)
    (processOk : Nat → String → Bool) (urls : List String) (existing_ids : Finset String) :
    (process_articles_from_urls genId processOk urls existing_ids).savedIds.Nodup
    ∧ (∀ x ∈ (process_articles_from_urls genId processOk urls existing_ids).savedIds,
        x ∉ existing_ids)
    ∧ (process_articles_from_urls genId processOk urls existing_ids).ledger
        = existing_ids
          ∪ (process_articles_from_urls genId processOk urls existing_ids).savedIds.toFinset := by
  obtain ⟨h1, h2, h3, _⟩ := processArticlesLoop_inv genId processOk existing_ids urls.enum
    { ledger := existing_ids, savedIds := [], stats := ⟨0, 0, 0⟩ }
    List.nodup_nil (by simp) (by simp)
  exact ⟨h1, h3, h2⟩

/-- C2 witness: the theorem applied to a run in which the same URL occurs
twice and one id is already present in the loaded ledger. -/
theorem process_articles_no_duplicate_store_witness :
    (process_articles_from_urls (fun u => u) (fun _ _ => true)
        ["https://x.test/a", "https://x.test/b", "https://x.test/a"]
        {"https://x.test/b"}).savedIds.Nodup
    ∧ (process_articles_from_urls (fun u => u) (fun _ _ => true)
        ["https://x.test/a", "https://x.test/b", "https://x.test/a"]
        {"https://x.test/b"}).savedIds = ["https://x.test/a"] := by
  refine ⟨(process_articles_no_duplicate_store (fun u => u) (fun _ _ => true)
    ["https://x.test/a", "https://x.test/b", "https://x.test/a"] {"https://x.test/b"}).1, ?_⟩
  decide

/-! ## Pagination URL enumeration (claims C4 and C5)

`BurmeseCorpusScraper._get_archive_urls` in `src/scraper/main.py`.  The
crawler's `get_page_content` is the oracle `fetch`.  Python string helpers
(`str.replace`, `str.startswith`, `str.rstrip('/')`, `str.lstrip('/')`) are
translated below. -/

/-- Python `str.replace` on character lists: replace non-overlapping
occurrences of `pat` left to right.  `fuel` is only the structural-recursion
measure: every step consumes at least one character when `pat` is non-empty,
so any `fuel ≥` input length computes the full replacement. -/
def pyReplaceAux (pat rep : List Char) : Nat → List Char → List Char
  | 0, s => s
  | _ + 1, [] => []
  | fuel + 1, c :: cs =>
    if pat.isPrefixOf (c :: cs) then
      rep ++ pyReplaceAux pat rep fuel ((c :: cs).drop pat.length)
    else c :: pyReplaceAux pat rep fuel cs

/-- Python `str.replace(pat, rep)` for a non-empty pattern (the pagination
template token `"{n}"`; an empty pattern never occurs in the translated
call site). -/
def pyReplace (s pat rep : String) : String :=
  match pat.data with
  | [] => s
  | _ :: _ => ⟨pyReplaceAux pat.data rep.data s.data.length s.data⟩

/-- Python `str.startswith`. -/
def pyStartsWith (s pre : String) : Bool :=
  pre.data.isPrefixOf s.data

/-- Python `str.rstrip('/')`. -/
def rstripSlash (s : String) : String :=
  ⟨(s.data.reverse.dropWhile (fun c => c == '/')).reverse⟩

/-- Python `str.lstrip('/')`. -/
def lstripSlash (s : String) : String :=
  ⟨s.data.dropWhile (fun c => c == '/')⟩

/-- The `param`/`next_url` computation of one `queryparam` iteration:
substitute the page counter into the template; a template starting with `?`
or `&` is appended to the base URL, anything else is joined as a path
segment. -/
def queryParamNextUrl (base_url pagination_param : String) (page : Nat) : String :=
  if pyStartsWith (pyReplace pagination_param "{n}" (toString page)) "?"
     || pyStartsWith (pyReplace pagination_param "{n}" (toString page)) "&" then
    base_url ++ pyReplace pagination_param "{n}" (toString page)
  else
    rstripSlash base_url ++ "/" ++ lstripSlash (pyReplace pagination_param "{n}" (toString page))

/-- The `while True` page loop of `_get_archive_urls` for `queryparam`
pagination, started at `page = 2` with `urls = [base_url]`.  The loop stops
on the `max_pages` cap, a failed fetch, content shorter than 1000
characters, or the hard safety ceiling of 1000 pages (`page > 1000` tested
after the increment, hence here on `page + 1`).  `fuel` is only the
structural-recursion measure: the safety ceiling fires first whenever
`fuel ≥ 1001 - page`, so the `fuel = 0` case is unreachable from the
translated entry point. -/
def queryParamLoop (fetch : String → Option String) (base_url pagination_param : String)
    (max_pages : Option Nat) : Nat → Nat → List String → List String
  | 0, _, urls => urls
  | fuel + 1, page, urls =>
    if (match max_pages with
        | some m => decide (0 < m) && decide (m ≤ urls.length)
        | none => false) then urls
    else
      match fetch (queryParamNextUrl base_url pagination_param page) with
      | none => urls
      | some content =>
        if content.length < 1000 then urls
        else if 1000 < page + 1 then urls ++ [queryParamNextUrl base_url pagination_param page]
        else queryParamLoop fetch base_url pagination_param max_pages fuel (page + 1)
               (urls ++ [queryParamNextUrl base_url pagination_param page])

/-- `BurmeseCorpusScraper._get_archive_urls`. -/
def get_archive_urls (fetch : String → Option String) (base_url : String)
    (pagination_type : String) (pagination_param : Option String)
    (max_pages : Option Nat) : List String :=
  let urls := [base_url]
  match pagination_param with
  | none => urls
  | some pparam =>
    if pagination_type = "none" ∨ pparam = "" then urls
    else if pagination_type = "queryparam" then
      queryParamLoop fetch base_url pparam max_pages 999 2 urls
    else if pagination_type = "loadmore" then urls ++ [base_url]
    else urls

/-- C4: with template `?page={n}`, no page cap, pages 2 and 3 fetching
plausibly sized content and page 4 fetching no content, the enumerated
archive URL list is exactly the base URL followed by pages 2 and 3, and
never contains the page-4 URL. -/
theorem query_param_enumerates_three_pages (fetch : String → Option String)
    (base_url c2 c3 : String)
    (h2 : fetch (base_url ++ "?page=2") = some c2) (h2len : 1000 ≤ c2.length)
    (h3 : fetch (base_url ++ "?page=3") = some c3) (h3len : 1000 ≤ c3.length)
    (h4 : fetch (base_url ++ "?page=4") = none) :
    get_archive_urls fetch base_url "queryparam" (some "?page={n}") none
      = [base_url, base_url ++ "?page=2", base_url ++ "?page=3"] := by
  have hq2 : queryParamNextUrl base_url "?page={n}" 2 = base_url ++ "?page=2" := by
    rw [queryParamNextUrl, show pyReplace "?page={n}" "{n}" (toString (2 : Nat)) = "?page=2"
        from by decide, if_pos (by decide)]
  have hq3 : queryParamNextUrl base_url "?page={n}" (2 + 1) = base_url ++ "?page=3" := by
    rw [queryParamNextUrl, show pyReplace "?page={n}" "{n}" (toString (2 + 1 : Nat)) = "?page=3"
        from by decide, if_pos (by decide)]
  have hq4 : queryParamNextUrl base_url "?page={n}" (2 + 1 + 1) = base_url ++ "?page=4" := by
    rw [queryParamNextUrl, show pyReplace "?page={n}" "{n}" (toString (2 + 1 + 1 : Nat)) = "?page=4"
        from by decide, if_pos (by decide)]
  have hga : get_archive_urls fetch base_url "queryparam" (some "?page={n}") none
      = queryParamLoop fetch base_url "?page={n}" none 999 2 [base_url] := by
    show (if ("queryparam" : String) = "none" ∨ ("?page={n}" : String) = "" then [base_url]
          else if ("queryparam" : String) = "queryparam" then
            queryParamLoop fetch base_url "?page={n}" none 999 2 [base_url]
          else if ("queryparam" : String) = "loadmore" then [base_url] ++ [base_url]
          else [base_url]) = _
    rw [if_neg (by decide), if_pos rfl]
  rw [hga]
  rw [show (999 : Nat) = 998 + 1 from rfl, queryParamLoop]
  rw [if_neg (by decide), hq2, h2]
  simp only
  rw [if_neg (by omega), if_neg (by decide)]
  rw [show (998 : Nat) = 997 + 1 from rfl, queryParamLoop]
  rw [if_neg (by decide), hq3, h3]
  simp only
  rw [if_neg (by omega), if_neg (by decide)]
  rw [show (997 : Nat) = 996 + 1 from rfl, queryParamLoop]
  rw [if_neg (by decide), hq4, h4]
  simp only
  rfl

def c4Content : String := ⟨List.replicate 1000 'a'⟩

def c4Fetch (u : String) : Option String :=
  if u = "https://x.test/list?page=2" ∨ u = "https://x.test/list?page=3" then some c4Content
  else none

theorem c4Content_length_ge : 1000 ≤ c4Content.length := by
  show 1000 ≤ (List.replicate 1000 'a').length
  rw [List.length_replicate]

theorem c4Fetch_page2 : c4Fetch ("https://x.test/list" ++ "?page=2") = some c4Content := by
  show (if "https://x.test/list" ++ "?page=2" = "https://x.test/list?page=2"
        ∨ "https://x.test/list" ++ "?page=2" = "https://x.test/list?page=3"
        then some c4Content else none) = some c4Content
  rw [if_pos (Or.inl (by decide))]

theorem c4Fetch_page3 : c4Fetch ("https://x.test/list" ++ "?page=3") = some c4Content := by
  show (if "https://x.test/list" ++ "?page=3" = "https://x.test/list?page=2"
        ∨ "https://x.test/list" ++ "?page=3" = "https://x.test/list?page=3"
        then some c4Content else none) = some c4Content
  rw [if_pos (Or.inr (by decide))]

theorem c4Fetch_page4 : c4Fetch ("https://x.test/list" ++ "?page=4") = none := by
  show (if "https://x.test/list" ++ "?page=4" = "https://x.test/list?page=2"
        ∨ "https://x.test/list" ++ "?page=4" = "https://x.test/list?page=3"
        then some c4Content else none) = none
  rw [if_neg (by decide)]

/-- C4 witness: the theorem applied to a concrete fetch oracle on which
pages 2 and 3 return 1000 characters of content and page 4 returns none. -/
theorem query_param_enumerates_three_pages_witness :
    get_archive_urls c4Fetch "https://x.test/list" "queryparam" (some "?page={n}") none
      = ["https://x.test/list", "https://x.test/list" ++ "?page=2",
         "https://x.test/list" ++ "?page=3"] :=
  query_param_enumerates_three_pages c4Fetch "https://x.test/list" c4Content c4Content
    c4Fetch_page2 c4Content_length_ge c4Fetch_page3 c4Content_length_ge c4Fetch_page4

/-- `max_clicks = max_pages - 1 if max_pages else 10` in
`WebCrawler.get_page_with_pagination`. -/
def loadMoreMaxClicks (max_pages : Option Nat) : Nat :=
  match max_pages with
  | some m => if m ≠ 0 then m - 1 else 10
  | none => 10

/-- `_process_archive_page` calls `get_page_with_pagination(archive_url,
pagination_param, max_pages or 3)`: an unset or zero `max_pages` arrives
there as `3`. -/
def loadMoreMaxClicksInPipeline (max_pages : Option Nat) : Nat :=
  loadMoreMaxClicks (some (match max_pages with
    | some m => if m ≠ 0 then m else 3
    | none => 3))

/-- C5 (code bug exhibit): for `loadmore` pagination with a non-empty button
selector, `_get_archive_urls` appends the base URL to the list that already
contains it, so the base URL is yielded twice, not once; and through the
pipeline an unset `max_pages` yields 2 button clicks, not the 10-click
default of `get_page_with_pagination` taken alone. -/
theorem load_more_yields_base_twice (fetch : String → Option String) (base_url : String) :
    get_archive_urls fetch base_url "loadmore" (some ".load-more") none
      = [base_url, base_url]
    ∧ loadMoreMaxClicksInPipeline none = 2 := by
  constructor
  · show (if ("loadmore" : String) = "none" ∨ (".load-more" : String) = "" then [base_url]
          else if ("loadmore" : String) = "queryparam" then
            queryParamLoop fetch base_url ".load-more" none 999 2 [base_url]
          else if ("loadmore" : String) = "loadmore" then [base_url] ++ [base_url]
          else [base_url]) = _
    rw [if_neg (by decide), if_neg (by decide), if_pos rfl]
    rfl
  · rfl

/-! ## JSON values and the resume-ledger scan (claim C6)

A JSON value as produced by Python's `json.loads` (floats do not occur in
the claims and are subsumed by `jnum`).  `json.loads` itself is the oracle
`decode`; `none` models `json.JSONDecodeError`.  Objects are key-unique
association lists (`json.loads` keeps the last duplicate key while building
the dict, so the decoded object already has unique keys). -/

mutual
inductive JsonVal where
  | jnull
  | jbool (b : Bool)
  | jnum (n : Int)
  | jstr (s : String)
  | jarr (elems : JsonList)
  | jobj (fields : JsonFields)

/-- A JSON array's element list (a mutual inductive rather than
`List JsonVal`, so that equality and traversals are plain structural
recursion). -/
inductive JsonList where
  | nil
  | cons (hd : JsonVal) (tl : JsonList)

/-- A JSON object's key-value bindings. -/
inductive JsonFields where
  | nil
  | cons (key : String) (val : JsonVal) (tl : JsonFields)
end

mutual
/-- Python `==` on decoded JSON values. -/
def JsonVal.beq : JsonVal → JsonVal → Bool
  | .jnull, .jnull => true
  | .jbool a, .jbool b => a == b
  | .jnum a, .jnum b => a == b
  | .jstr a, .jstr b => a == b
  | .jarr xs, .jarr ys => JsonList.beq xs ys
  | .jobj fs, .jobj gs => JsonFields.beq fs gs
  | _, _ => false

def JsonList.beq : JsonList → JsonList → Bool
  | .nil, .nil => true
  | .cons x xs, .cons y ys => JsonVal.beq x y && JsonList.beq xs ys
  | _, _ => false

def JsonFields.beq : JsonFields → JsonFields → Bool
  | .nil, .nil => true
  | .cons k v tl, .cons k2 v2 tl2 => k == k2 && JsonVal.beq v v2 && JsonFields.beq tl tl2
  | _, _ => false
end

/-- `'id' in article` over a dict: key containment. -/
def JsonFields.hasKey : JsonFields → String → Bool
  | .nil, _ => false
  | .cons k _ tl, key => k == key || tl.hasKey key

/-- `article['id']` over a dict (keys are unique after `json.loads`). -/
def JsonFields.findKey? : JsonFields → String → Option JsonVal
  | .nil, _ => none
  | .cons k v tl, key => if k == key then some v else tl.findKey? key

/-- `'id' in article` over a list: element equality against `'id'`. -/
def JsonList.containsStrId : JsonList → Bool
  | .nil => false
  | .cons v tl => JsonVal.beq v (.jstr "id") || tl.containsStrId

/-- Bool test that `pat` occurs as a contiguous run (Python `str` `in`). -/
def listIsInfix (pat : List Char) : List Char → Bool
  | [] => pat.isEmpty
  | c :: cs => pat.isPrefixOf (c :: cs) || listIsInfix pat cs

/-- Python `'id' in article` for a decoded JSON value `article`:
key containment for a dict, substring containment for a string, element
equality for a list; for `int`/`bool`/`None` Python raises
`TypeError: argument ... is not iterable`, modelled as `Except.error`. -/
def pyContainsId : JsonVal → Except Unit Bool
  | .jobj fields => .ok (fields.hasKey "id")
  | .jstr s => .ok (listIsInfix "id".data s.data)
  | .jarr elems => .ok elems.containsStrId
  | _ => .error ()

/-- Python `article['id']`: dict lookup for a dict; for a string or a list
Python raises `TypeError: ... indices must be integers`, modelled as
`Except.error` (also used for the unreachable dict `KeyError`). -/
def pySubscriptId : JsonVal → Except Unit JsonVal
  | .jobj fields =>
    match fields.findKey? "id" with
    | some v => .ok v
    | none => .error ()
  | _ => .error ()

/-- Python `set.add` on the ledger, insertion-ordered for determinism of the
model (only membership is ever observed). -/
def setAddJson (acc : List JsonVal) (v : JsonVal) : List JsonVal :=
  if acc.any (fun w => JsonVal.beq w v) then acc else acc ++ [v]

/-- The `for line in f` loop of `DataStorage.get_existing_ids` (ndjson
branch) together with its outer `except Exception` handler: a line failing
`json.loads` is skipped by the inner `except json.JSONDecodeError`, but a
`TypeError` raised by `'id' in article` or `article['id']` escapes to the
outer handler, which logs and returns the ids collected so far — the scan
aborts. -/
def scanExistingIds (decode : String → Option JsonVal) :
    List String → List JsonVal → List JsonVal
  | [], acc => acc
  | line :: rest, acc =>
    if pyStrip line = "" then scanExistingIds decode rest acc
    else
      match decode (pyStrip line) with
      | none => scanExistingIds decode rest acc
      | some article =>
        match pyContainsId article with
        | .error _ => acc
        | .ok false => scanExistingIds decode rest acc
        | .ok true =>
          match pySubscriptId article with
          | .error _ => acc
          | .ok v => scanExistingIds decode rest (setAddJson acc v)

/-- `DataStorage.get_existing_ids` for the ndjson format. -/
def get_existing_ids (decode : String → Option JsonVal) (lines : List String) : List JsonVal :=
  scanExistingIds decode lines []

/-- The same loop in `load_existing_ids` of `src/scraper/utils.py`, which has
no outer handler: the `TypeError` propagates to the caller. -/
def load_existing_ids (decode : String → Option JsonVal) :
    List String → List JsonVal → Except Unit (List JsonVal)
  | [], acc => .ok acc
  | line :: rest, acc =>
    if pyStrip line = "" then load_existing_ids decode rest acc
    else
      match decode (pyStrip line) with
      | none => load_existing_ids decode rest acc
      | some article =>
        match pyContainsId article with
        | .error _ => .error ()
        | .ok false => load_existing_ids decode rest acc
        | .ok true =>
          match pySubscriptId article with
          | .error _ => .error ()
          | .ok v => load_existing_ids decode rest (setAddJson acc v)

def c6Lines : List String :=
  ["\x7b\"id\":\"a\"\x7d", "5", "\x7b\"id\":\"b\"\x7d"]

/-- `json.loads` restricted to the three lines of the exhibit file: two
well-formed records with distinct ids and, between them, the line `5` —
valid JSON, but not an object and carrying no id. -/
def c6Decode (l : String) : Option JsonVal :=
  if l = "\x7b\"id\":\"a\"\x7d" then some (.jobj (.cons "id" (.jstr "a") .nil))
  else if l = "5" then some (.jnum 5)
  else if l = "\x7b\"id\":\"b\"\x7d" then some (.jobj (.cons "id" (.jstr "b") .nil))
  else none

/-- C6 (code bug exhibit): on a file holding the records `{"id":"a"}` and
`{"id":"b"}` with the id-less JSON line `5` between them, the ndjson resume
scan aborts at the `5` (Python `'id' in 5` raises `TypeError`), so the
returned id set is `{"a"}` and the id `"b"` of a well-formed record is lost;
the `utils.load_existing_ids` variant propagates the exception outright. -/
theorem resume_scan_aborts_on_nondict_json :
    get_existing_ids c6Decode c6Lines = [JsonVal.jstr "a"]
    ∧ JsonVal.jstr "b" ∉ get_existing_ids c6Decode c6Lines
    ∧ load_existing_ids c6Decode c6Lines [] = .error () := by
  refine ⟨rfl, ?_, rfl⟩
  intro hmem
  rw [show get_existing_ids c6Decode c6Lines = [JsonVal.jstr "a"] from rfl] at hmem
  simp at hmem

/-! ## Article extraction (claims C1, C7, C8)

`ContentExtractor.extract_article_content` and
`ContentExtractor._extract_title` in `src/scraper/extractor.py`.  A parsed
article page is modelled by the results of the soup queries the two
functions perform. -/

structure ContentNode where
  raw_html : String
  h1_text : Option String
deriving DecidableEq

/-- An article page as parsed by BeautifulSoup, restricted to the queries
`extract_article_content` and `_extract_title` perform.  `og_title` /
`twitter_title` hold the meta tag's `content` attribute when the tag exists
and carries one (the source skips the tag otherwise).  `h1s` / `h2_texts`
are the texts of `soup.find_all('h1')` / `soup.find_all('h2')`; a bs4 `Tag`
is always truthy (`Tag.__bool__` returns `True` unconditionally), so the
source's `any(h1_tags)` is true exactly when the `<h1>` list is
non-empty. -/
structure PageDoc where
  selectOne : String → Option ContentNode
  title_text : Option String
  og_title : Option String
  twitter_title : Option String
  h1s : List String
  h2_texts : List String

/-- The filter `t and len(t.strip()) > 5` on title candidates. -/
def isValidTitle (t : String) : Bool :=
  !(t == "") && decide (5 < (pyStrip t).length)

/-- The `title_candidates` list of `_extract_title`, in accumulation order:
document `<title>`, Open-Graph title, Twitter-card title, all `<h1>` texts,
then all `<h2>` texts when `not any(h1_tags)` — i.e. when no `<h1>` exists,
since every bs4 `Tag` is truthy — then the first `<h1>` inside the content
element. -/
def titleCandidates (doc : PageDoc) (content_element : Option ContentNode) : List String :=
  (match doc.title_text with | some t => [clean_text t] | none => [])
  ++ (match doc.og_title with
      | some s => if s ≠ "" then [clean_text s] else []
      | none => [])
  ++ (match doc.twitter_title with
      | some s => if s ≠ "" then [clean_text s] else []
      | none => [])
  ++ doc.h1s.map clean_text
  ++ (if doc.h1s.isEmpty then doc.h2_texts.map clean_text else [])
  ++ (match content_element with
      | some node => match node.h1_text with | some t => [clean_text t] | none => []
      | none => [])

/-- `ContentExtractor._extract_title`: the first candidate passing the
validity filter, else `None`. -/
def extract_title (doc : PageDoc) (content_element : Option ContentNode) : Option String :=
  ((titleCandidates doc content_element).filter isValidTitle).head?

structure Article where
  id : String
  title : Option String
  url : String
  thumbnail_url : Option String
  raw_html_content : Option String
  scraped_date : String
  source_url : String
deriving DecidableEq

/-- Scan for the first `"://"`, returning the characters before it and the
rest. -/
def splitSchemeAux (acc : List Char) : List Char → Option (List Char × List Char)
  | [] => none
  | ':' :: '/' :: '/' :: rest => some (acc.reverse, rest)
  | c :: rest => splitSchemeAux (c :: acc) rest

/-- `urlparse(url).scheme + '://' + urlparse(url).netloc` for the absolute
http(s) URLs the pipeline passes here: the scheme is everything before the
first `"://"` and the netloc runs to the next `/`, `?` or `#`. -/
def source_url_of (url : String) : String :=
  match splitSchemeAux [] url.data with
  | some (scheme, rest) =>
    ⟨scheme⟩ ++ "://" ++ ⟨rest.takeWhile (fun c => !(c == '/' || c == '?' || c == '#'))⟩
  | none => "://"

/-- `ContentExtractor.extract_article_content`.  `parsed` is the outcome of
`BeautifulSoup(content, 'html.parser')` together with the soup queries the
body performs; `none` models an exception inside the `try` block, whose
`except` handler builds the partial record.  `genId` is `generate_id` (the
md5 hex digest of the URL string) and `today` the
`get_current_timestamp().split('T')[0]` date. -/
def extract_article_content (genId : String → String) (today : String)
    (parsed : Option PageDoc) (url content_selector : String) : Option Article :=
  match parsed with
  | none =>
    some { id := genId url
           title := none
           url := url
           thumbnail_url := none
           raw_html_content := none
           scraped_date := today
           source_url := source_url_of url }
  | some soup =>
    match soup.selectOne content_selector with
    | none => none
    | some content_element =>
      some { id := genId url
             title := extract_title soup (some content_element)
             url := url
             thumbnail_url := none
             raw_html_content := some content_element.raw_html
             scraped_date := today
             source_url := source_url_of url }

/-! ### Claim C1 -/

def c1EmptyDoc : PageDoc :=
  { selectOne := fun _ => none
    title_text := none
    og_title := none
    twitter_title := none
    h1s := []
    h2_texts := [] }

/-- C1 counterexample: on a page whose content selector matches no node,
`extract_article_content` returns `None`, not a partial record. -/
theorem extract_article_content_none_on_selector_miss :
    extract_article_content (fun u => u) "2026-10-12" (some c1EmptyDoc)
      "https://x.test/a" ".content" = none := rfl

/-- C1 amended: the extraction call returns the partial record (with `id`,
`url`, `scraped_date`, `source_url` populated and the other fields null)
when an exception occurs inside extraction, but returns null when the
content selector merely matches no node; whenever a record is returned, its
`id`, `url`, `scraped_date` and `source_url` fields are populated from the
article URL and the current date. -/
theorem extract_article_content_fallback_record (genId : String → String)
    (today url content_selector : String) :
    extract_article_content genId today none url content_selector
      = some { id := genId url
               title := none
               url := url
               thumbnail_url := none
               raw_html_content := none
               scraped_date := today
               source_url := source_url_of url }
    ∧ (∀ soup : PageDoc, soup.selectOne content_selector = none →
        extract_article_content genId today (some soup) url content_selector = none)
    ∧ (∀ (parsed : Option PageDoc) (a : Article),
        extract_article_content genId today parsed url content_selector = some a →
        a.id = genId url ∧ a.url = url ∧ a.scraped_date = today
          ∧ a.source_url = source_url_of url) := by
  refine ⟨rfl, ?_, ?_⟩
  · intro soup h
    simp [extract_article_content, h]
  · intro parsed a h
    cases parsed with
    | none =>
      simp only [extract_article_content, Option.some.injEq] at h
      subst h
      exact ⟨rfl, rfl, rfl, rfl⟩
    | some soup =>
      cases hsel : soup.selectOne content_selector with
      | none => simp [extract_article_content, hsel] at h
      | some content_element =>
        simp only [extract_article_content, hsel, Option.some.injEq] at h
        subst h
        exact ⟨rfl, rfl, rfl, rfl⟩

/-- C1 witness: the amended theorem applied at a concrete page whose
selector matches nothing. -/
theorem extract_article_content_fallback_record_witness :
    extract_article_content (fun u => u) "2026-10-12" (some c1EmptyDoc)
      "https://x.test/b" ".content" = none :=
  (extract_article_content_fallback_record (fun u => u) "2026-10-12"
    "https://x.test/b" ".content").2.1 c1EmptyDoc rfl

/-! ### Claim C7 -/

def jsonOfOptStr : Option String → JsonVal
  | none => .jnull
  | some s => .jstr s

/-- The record dict built by `extract_article_content`, as JSON fields in
source order. -/
def article_to_fields (a : Article) : JsonFields :=
  .cons "id" (.jstr a.id)
    (.cons "title" (jsonOfOptStr a.title)
      (.cons "url" (.jstr a.url)
        (.cons "thumbnail_url" (jsonOfOptStr a.thumbnail_url)
          (.cons "raw_html_content" (jsonOfOptStr a.raw_html_content)
            (.cons "scraped_date" (.jstr a.scraped_date)
              (.cons "source_url" (.jstr a.source_url) .nil))))))

/-- `DataStorage._validate_article_structure`: the record must carry the
keys `id`, `url` and `scraped_at`. -/
def validate_article_structure (article : JsonFields) : Bool :=
  ["id", "url", "scraped_at"].all (fun f => article.hasKey f)

/-- C7 (code bug exhibit): every record produced by article extraction
carries `scraped_date` but not the key `scraped_at` that
`_validate_article_structure` requires, so the validator judges every such
record structurally invalid. -/
theorem extracted_record_fails_validator (genId : String → String)
    (today url content_selector : String) (parsed : Option PageDoc) (a : Article)
    (_h : extract_article_content genId today parsed url content_selector = some a) :
    validate_article_structure (article_to_fields a) = false := by
  simp [validate_article_structure, article_to_fields, JsonFields.hasKey]

def c7Doc : PageDoc :=
  { selectOne := fun _ => some ⟨"<div>Article body</div>", none⟩
    title_text := none
    og_title := none
    twitter_title := none
    h1s := []
    h2_texts := [] }

def c7Record : Article :=
  { id := "https://x.test/a"
    title := none
    url := "https://x.test/a"
    thumbnail_url := none
    raw_html_content := some "<div>Article body</div>"
    scraped_date := "2026-10-12"
    source_url := "https://x.test" }

/-- C7 witness: the theorem applied to the concrete record extracted from a
concrete page. -/
theorem extracted_record_fails_validator_witness :
    validate_article_structure (article_to_fields c7Record) = false :=
  extracted_record_fails_validator (fun u => u) "2026-10-12" "https://x.test/a"
    ".content" (some c7Doc) c7Record rfl

/-! ### Claim C8 -/

/-- The claim's candidate list, spelled from the specification's words:
document `<title>`, Open-Graph title, Twitter-card title, all `<h1>` texts,
then — *only if no `<h1>` exists* — all `<h2>` texts, then any `<h1>`
inside the matched content node. -/
def claimTitleCandidates (doc : PageDoc) (content_element : Option ContentNode) : List String :=
  (match doc.title_text with | some t => [clean_text t] | none => [])
  ++ (match doc.og_title with
      | some s => if s ≠ "" then [clean_text s] else []
      | none => [])
  ++ (match doc.twitter_title with
      | some s => if s ≠ "" then [clean_text s] else []
      | none => [])
  ++ doc.h1s.map clean_text
  ++ (if doc.h1s.isEmpty then doc.h2_texts.map clean_text else [])
  ++ (match content_element with
      | some node => match node.h1_text with | some t => [clean_text t] | none => []
      | none => [])

/-- The claim's title derivation: the first candidate in priority order
whose cleaned text is non-empty and longer than the minimum length. -/
def claimTitle (doc : PageDoc) (content_element : Option ContentNode) : Option String :=
  (claimTitleCandidates doc content_element).find? isValidTitle

theorem head?_filter_eq_find? {α : Type} (p : α → Bool) :
    ∀ l : List α, (l.filter p).head? = l.find? p
  | [] => rfl
  | x :: xs => by
    cases h : p x with
    | true => rw [List.filter_cons_of_pos h, List.find?_cons_of_pos _ h, List.head?_cons]
    | false => rw [List.filter_cons_of_neg (by simp [h]), List.find?_cons_of_neg _ (by simp [h]),
        head?_filter_eq_find? p xs]

/-- C8: the derived title is the first candidate — in the fixed priority
order document `<title>`, Open-Graph title, Twitter-card title, all `<h1>`
texts, then (only if no `<h1>` exists) all `<h2>` texts, then any `<h1>`
inside the matched content node — whose cleaned text is non-empty and
longer than the minimum length; and when no `<h1>`/`<h2>`/meta candidate
exists at all, it falls back to the `<title>` text when long enough, else
the title is null (the call is a total function and never throws). -/
theorem extract_title_priority_order (doc : PageDoc) (content_element : Option ContentNode) :
    extract_title doc content_element = claimTitle doc content_element
    ∧ (doc.h1s = [] → doc.h2_texts = [] → doc.og_title = none → doc.twitter_title = none →
       (∀ node, content_element = some node → node.h1_text = none) →
       extract_title doc content_element
         = match doc.title_text with
           | some t => if isValidTitle (clean_text t) then some (clean_text t) else none
           | none => none) := by
  constructor
  · rw [extract_title, head?_filter_eq_find?]
    rfl
  · intro h1 h2 hog htw hce
    rw [extract_title]
    have hcands : titleCandidates doc content_element
        = (match doc.title_text with | some t => [clean_text t] | none => []) := by
      simp only [titleCandidates, h1, h2, hog, htw]
      cases hc : content_element with
      | none => simp
      | some node => simp [hce node hc]
    rw [hcands]
    cases doc.title_text with
    | none => simp
    | some t =>
      cases hv : isValidTitle (clean_text t) with
      | true => simp [hv]
      | false => simp [hv]

def c8FallbackDoc : PageDoc :=
  { selectOne := fun _ => none
    title_text := some "The page title text"
    og_title := none
    twitter_title := none
    h1s := []
    h2_texts := [] }

/-- C8 witness: the theorem applied at a concrete page with only a
`<title>` tag, which becomes the fallback title. -/
theorem extract_title_priority_order_witness :
    extract_title c8FallbackDoc none = some "The page title text" := by
  have h := (extract_title_priority_order c8FallbackDoc none).2 rfl rfl rfl rfl
    (fun node hn => by cases hn)
  rw [h]
  rfl

end BurmeseScraper
